import Mathlib

/-!
# Runtime-support bindings of `cilly/src/c_exporter/c_header.h`

The header binds the names the C exporter emits to C expressions.  Every
binding is a macro, so its meaning is the meaning of the C expression it
expands to.  The header only compiles as GNU C (`__int128`, `typeof`,
statement expressions, `__atomic_*`, `__builtin_*`), so the expressions are
read with the GNU C rules:

* an `unsigned __int128` is a natural number below `2 ^ 128`; a result that
  does not fit is reduced modulo `2 ^ 128`;
* an `__int128` is an integer in `[-2 ^ 127, 2 ^ 127)`; `+`, `-`, `*` whose
  exact result leaves that range have no defined value (`none`);
* conversion to a signed type reduces modulo `2 ^ 128`, bitwise operators
  act on the two's-complement representation, signed `>>` extends the sign,
  signed `<<` is not treated as undefined;
* a shift whose amount is negative or at least the width has no defined
  value (`none`);
* `size_t` is the unsigned 64-bit type;
* functions the header calls but does not define (`__bswap_32`,
  `__builtin_popcount`, `__builtin_ctz`, `strlen`, `abort`, the `__atomic_*`
  builtins) are given their documented behaviour.
-/

/-! ## Representation of 128-bit values -/

/-- The values of `unsigned __int128`. -/
def UInt128_inRange (a : Nat) : Prop := a < 2 ^ 128

/-- The values of `__int128`. -/
def Int128_inRange (a : Int) : Prop := -(2 ^ 127) ≤ a ∧ a < 2 ^ 127

/-- The values of an unsigned 64-bit integer. -/
def UInt64_inRange (a : Nat) : Prop := a < 2 ^ 64

/-- The values of a signed 64-bit integer. -/
def Int64_inRange (a : Int) : Prop := -(2 ^ 63) ≤ a ∧ a < 2 ^ 63

instance (a : Nat) : Decidable (UInt128_inRange a) := by
  unfold UInt128_inRange; infer_instance

instance (a : Int) : Decidable (Int128_inRange a) := by
  unfold Int128_inRange; infer_instance

instance (a : Nat) : Decidable (UInt64_inRange a) := by
  unfold UInt64_inRange; infer_instance

instance (a : Int) : Decidable (Int64_inRange a) := by
  unfold Int64_inRange; infer_instance

/-- The 128-bit two's-complement representation of an integer: its residue
modulo `2 ^ 128`.  This is also the C conversion to `unsigned __int128`. -/
def toBits128 (x : Int) : Nat := (x % 2 ^ 128).toNat

/-- The signed value of a 128-bit pattern: patterns with bit 127 set stand
for the negative numbers. -/
def ofBits128 (n : Nat) : Int :=
  if n % 2 ^ 128 < 2 ^ 127 then ((n % 2 ^ 128 : Nat) : Int)
  else ((n % 2 ^ 128 : Nat) : Int) - 2 ^ 128

/-- Result of an `unsigned __int128` operation whose exact value is `r`:
reduced modulo `2 ^ 128`. -/
def wrapU128 (r : Int) : Nat := toBits128 r

/-- Conversion of the integer value `r` to `__int128` (reduction modulo
`2 ^ 128` into the signed range). -/
def wrapS128 (r : Int) : Int := ofBits128 (toBits128 r)

/-- Result of an `__int128` arithmetic operation whose exact value is `r`:
defined only when `r` is representable. -/
def signedArith128 (r : Int) : Option Int :=
  if Int128_inRange r then some r else none

/-! ## 128 bit: arithmetic -/

/-- Binding `#define System_Int128_op_Addition_i128i128(a, b) ((a) + (b))` -/
def System_Int128_op_Addition_i128i128 (a b : Int) : Option Int :=
  signedArith128 (a + b)

/-- Binding `#define System_UInt128_op_Addition_u128u128(a, b) ((a) + (b))` -/
def System_UInt128_op_Addition_u128u128 (a b : Nat) : Nat :=
  wrapU128 ((a : Int) + (b : Int))

/-- Binding `#define System_Int128op_Subtraction(a, b) ((a) - (b))` -/
def System_Int128op_Subtraction (a b : Int) : Option Int :=
  signedArith128 (a - b)

/-- Binding `#define System_UInt128op_Subtraction(a, b) ((a) - (b))` -/
def System_UInt128op_Subtraction (a b : Nat) : Nat :=
  wrapU128 ((a : Int) - (b : Int))

/-- Binding `#define System_Int128op_Multiply(a, b) ((a) * (b))` -/
def System_Int128op_Multiply (a b : Int) : Option Int :=
  signedArith128 (a * b)

/-- Binding `#define System_UInt128op_Multiply(a, b) ((a) * (b))` -/
def System_UInt128op_Multiply (a b : Nat) : Nat :=
  wrapU128 ((a : Int) * (b : Int))

/-! ## 128 bit: comparison

A C comparison has type `int` and yields `1` when it holds, `0` otherwise. -/

/-- Binding `#define System_UInt128_op_Equality_u128u128(a, b) ((a) == (b))` -/
def System_UInt128_op_Equality_u128u128 (a b : Nat) : Int :=
  if a = b then 1 else 0

/-- Binding `#define System_Int128_op_Equality_i128i128(a, b) ((a) == (b))` -/
def System_Int128_op_Equality_i128i128 (a b : Int) : Int :=
  if a = b then 1 else 0

/-- Binding `#define System_UInt128op_LessThan(a, b) ((a) < (b))` -/
def System_UInt128op_LessThan (a b : Nat) : Int :=
  if a < b then 1 else 0

/-- Binding `#define System_Int128op_LessThan(a, b) ((a) < (b))` -/
def System_Int128op_LessThan (a b : Int) : Int :=
  if a < b then 1 else 0

/-! ## 128 bit: shifts and bitwise operators -/

/-- Whether `b` is a shift amount for which a 128-bit shift is defined. -/
def shiftAmountOk (b : Int) : Prop := 0 ≤ b ∧ b < 128

instance (b : Int) : Decidable (shiftAmountOk b) := by
  unfold shiftAmountOk; infer_instance

/-- Arithmetic right shift of a 128-bit pattern `n` by `s < 128` places: the
bits move down and the `s` vacated top places are filled with bit 127. -/
def sar128 (n s : Nat) : Nat :=
  (n >>> s) ||| (if n.testBit 127 then (2 ^ s - 1) <<< (128 - s) else 0)

/-- Binding `#define System_UInt128op_RightShift(a, b) ((a) >> (b))` -/
def System_UInt128op_RightShift (a : Nat) (b : Int) : Option Nat :=
  if shiftAmountOk b then some (a >>> b.toNat) else none

/-- Binding `#define System_Int128op_RightShift(a, b) ((a) >> (b))` -/
def System_Int128op_RightShift (a : Int) (b : Int) : Option Int :=
  if shiftAmountOk b then some (ofBits128 (sar128 (toBits128 a) b.toNat)) else none

/-- Operator `a << s` on `unsigned __int128` for an amount `s < 128`: bits shifted
out of the word are dropped. -/
def shl_u128 (a s : Nat) : Nat := (a <<< s) % 2 ^ 128

/-- Operator `a << s` on `__int128` for an amount `s < 128`, on the representation. -/
def shl_i128 (a : Int) (s : Nat) : Int := ofBits128 ((toBits128 a <<< s) % 2 ^ 128)

/-- Operator `a | b` on `__int128`, on the representation. -/
def or_i128 (a b : Int) : Int := ofBits128 (toBits128 a ||| toBits128 b)

/-- Operator `a & b` on `__int128`, on the representation. -/
def and_i128 (a b : Int) : Int := ofBits128 (toBits128 a &&& toBits128 b)

/-! ## 128 bit: conversions and constructors

The argument of a conversion macro is any integer expression; `arg` is its
value. -/

/-- Binding `#define System_Int128op_Explicit(arg) ((__int128)(arg))` -/
def System_Int128op_Explicit (arg : Int) : Int := wrapS128 arg

/-- Binding `#define System_UInt128op_Explicit(arg) ((unsigned __int128)(arg))` -/
def System_UInt128op_Explicit (arg : Int) : Nat := wrapU128 arg

/-- Binding `#define System_Int128op_Implicit(arg) ((__int128)(arg))` -/
def System_Int128op_Implicit (arg : Int) : Int := wrapS128 arg

/-- Binding `#define System_UInt128op_Implicit(arg) ((unsigned __int128)(arg))` -/
def System_UInt128op_Implicit (arg : Int) : Nat := wrapU128 arg

/-- Binding `#define System_UInt128__ctor_mu128u64u64(upper, lower)
(((unsigned __int128)lower) | (((unsigned __int128)upper) << 64))`,
with `upper` and `lower` unsigned 64-bit values. -/
def System_UInt128__ctor_mu128u64u64 (upper lower : Nat) : Nat :=
  wrapU128 (lower : Int) ||| shl_u128 (wrapU128 (upper : Int)) 64

/-- Binding `#define System_Int128__ctor_mu128u64u64(upper, lower)
(((__int128)lower) | (((__int128)upper) << 64))`,
with `upper` and `lower` unsigned 64-bit values. -/
def System_Int128__ctor_mu128u64u64 (upper lower : Nat) : Int :=
  or_i128 (wrapS128 (lower : Int)) (shl_i128 (wrapS128 (upper : Int)) 64)

/-- The constant `0xFFFFFFFFFFFFFFFF` that selects the low 64 bits. -/
def LOW64_MASK : Nat := 2 ^ 64 - 1

/-! ## Atomics

Memory maps addresses to words.  Each `__atomic_*` builtin is one indivisible
step on memory; the variables of the statement expression are local to the
call. -/

/-- Memory: the word stored at each address. -/
abbrev Mem (α : Type) := Nat → α

/-- Store `v` at address `p`. -/
def Mem.store {α : Type} (m : Mem α) (p : Nat) (v : α) : Mem α :=
  fun q => if q = p then v else m q

/-- Outcome of `__atomic_compare_exchange`: memory afterwards, the object
`expected` afterwards, and the builtin's boolean result. -/
structure CmpXchgOutcome (α : Type) where
  mem : Mem α
  expected : α
  success : Bool

/-- Builtin `__atomic_compare_exchange(ptr, &expected, &desired, weak = 0, ...)`:
compares `*ptr` with `expected`; when equal writes `desired` into `*ptr` and
returns true, otherwise writes `*ptr` into `expected` and returns false. -/
def atomic_compare_exchange {α : Type} [DecidableEq α]
    (m : Mem α) (ptr : Nat) (expected desired : α) : CmpXchgOutcome α :=
  if m ptr = expected then ⟨m.store ptr desired, expected, true⟩
  else ⟨m, m ptr, false⟩

/-- Builtin `__atomic_exchange(ptr, &val, &ret, ...)`: writes `val` into `*ptr` and
the previous contents of `*ptr` into `ret`.  Returns memory and `ret`. -/
def atomic_exchange {α : Type} (m : Mem α) (ptr : Nat) (val : α) : Mem α × α :=
  (m.store ptr val, m ptr)

/-- Binding `#define System_Threading_InterlockedCompareExchange(addr, value, comparand)
({typeof(comparand) expected = comparand; typeof(value) val = value;
__atomic_compare_exchange((addr),&(expected),&(val),0,__ATOMIC_SEQ_CST,0); expected; })`.
Returns the value of the statement expression and memory afterwards. -/
def System_Threading_InterlockedCompareExchange {α : Type} [DecidableEq α]
    (m : Mem α) (addr : Nat) (value comparand : α) : α × Mem α :=
  let expected := comparand
  let val := value
  let r := atomic_compare_exchange m addr expected val
  (r.expected, r.mem)

/-- Binding `#define System_Threading_InterlockedExchange(addr, val)
({typeof(val) value = val; typeof(val) ret;
__atomic_exchange((addr),&value,&ret,__ATOMIC_SEQ_CST); ret; })`.
Returns the value of the statement expression and memory afterwards. -/
def System_Threading_InterlockedExchange {α : Type}
    (m : Mem α) (addr : Nat) (val : α) : α × Mem α :=
  let value := val
  let r := atomic_exchange m addr value
  (r.2, r.1)

/-- Whether the compare-and-exchange call performs the swap: the result of
the builtin inside the macro. -/
def casSucceeds {α : Type} [DecidableEq α]
    (m : Mem α) (addr : Nat) (value comparand : α) : Bool :=
  (atomic_compare_exchange m addr comparand value).success

/-- Racing calls `InterlockedCompareExchange(addr, v, comparand)`, one per
candidate `v`, whose atomic steps reach memory in the order of the list.
Returns memory afterwards and the number of calls that performed the swap. -/
def raceCompareExchange {α : Type} [DecidableEq α] (addr : Nat) (comparand : α) :
    Mem α → List α → Mem α × Nat
  | m, [] => (m, 0)
  | m, v :: vs =>
    let won := casSucceeds m addr v comparand
    let m1 := (System_Threading_InterlockedCompareExchange m addr v comparand).2
    let rest := raceCompareExchange addr comparand m1 vs
    (rest.1, rest.2 + (if won then 1 else 0))

/-! ## 128 bit: XOR, ones-complement, negation -/

/-- Binding `#define System_UInt128op_ExclusiveOr(a, b) ((a) ^ (b))` -/
def System_UInt128op_ExclusiveOr (a b : Nat) : Nat := a ^^^ b

/-- Binding `#define System_Int128op_ExclusiveOr(a, b) ((a) ^ (b))`, on the
representation. -/
def System_Int128op_ExclusiveOr (a b : Int) : Int :=
  ofBits128 (toBits128 a ^^^ toBits128 b)

/-- Binding `#define System_UInt128op_OnesComplement(a) (~(a))`: on an
unsigned type `~a` is the maximum value of the type minus `a`. -/
def System_UInt128op_OnesComplement (a : Nat) : Nat := 2 ^ 128 - 1 - a

/-- Binding `#define System_Int128op_OnesComplement(a) (~(a))`, on the
representation. -/
def System_Int128op_OnesComplement (a : Int) : Int :=
  ofBits128 (2 ^ 128 - 1 - toBits128 a)

/-- Binding `#define System_Int128op_UnaryNegation(a) (-(a))` -/
def System_Int128op_UnaryNegation (a : Int) : Option Int :=
  signedArith128 (-a)

/-! ## Bswap -/

/-- The values of an unsigned 32-bit word. -/
def UInt32_inRange (a : Nat) : Prop := a < 2 ^ 32

instance (a : Nat) : Decidable (UInt32_inRange a) := by
  unfold UInt32_inRange; infer_instance

/-- Modelled from the spec: `__bswap_32` comes from the C library's
`byteswap.h`, which the header uses but does not define; it reverses the byte
order of a 32-bit word.  Written as the library's mask-and-shift expression
`((x & 0xff000000) >> 24) | ((x & 0x00ff0000) >> 8) | ((x & 0x0000ff00) << 8)
| ((x & 0x000000ff) << 24)`. -/
def bswap_32 (x : Nat) : Nat :=
  ((x &&& 0xff000000) >>> 24) ||| ((x &&& 0x00ff0000) >>> 8)
    ||| ((x &&& 0x0000ff00) <<< 8) ||| ((x &&& 0x000000ff) <<< 24)

/-- Binding `#define System_Buffers_Binary_BinaryPrimitivesReverseEndianness(val)
__bswap_32(val)`; the argument is converted to the 32-bit parameter type. -/
def System_Buffers_Binary_BinaryPrimitivesReverseEndianness (val : Nat) : Nat :=
  bswap_32 (val % 2 ^ 32)

/-- Byte `i` of a word, byte `0` being the least significant. -/
def byteAt (x i : Nat) : Nat := x / 2 ^ (8 * i) % 256

/-! ## String -/

/-- The C library's `strlen` on the bytes found from the pointer on: the
number of bytes before the first null byte.  There is no result when no null
byte follows. -/
def strlen : List Nat → Option Nat
  | [] => none
  | c :: cs => if c = 0 then some 0 else (strlen cs).map (fun n => n + 1)

/-- Result of a `size_t` operation whose exact value is `r`: reduced modulo
`2 ^ 64`, `size_t` being the unsigned 64-bit type of the target. -/
def wrapSize (r : Int) : Nat := (r % 2 ^ 64).toNat

/-- Binding `#define System_Stringget_Length(arg) (strlen(arg) - 1)`; the
subtraction is done in `size_t`. -/
def System_Stringget_Length (arg : List Nat) : Option Nat :=
  (strlen arg).map (fun n => wrapSize ((n : Int) - 1))

/-! ## Misc: bit counting -/

/-- Number of set bits among the lowest `k` bits of `x`: the lowest bit is
added and shifted out, `k` times. -/
def popcountBits : Nat → Nat → Nat
  | 0, _ => 0
  | k + 1, x => x % 2 + popcountBits k (x / 2)

/-- Modelled from the spec: `__builtin_popcount` is a compiler builtin, which
the header uses but does not define; it returns the number of set bits of a
32-bit word. -/
def builtin_popcount (x : Nat) : Nat := popcountBits 32 x

/-- Binding `#define System_Numerics_BitOperationsPopCount(arg)
__builtin_popcount(arg)`; the argument is converted to `unsigned int`. -/
def System_Numerics_BitOperationsPopCount (arg : Nat) : Nat :=
  builtin_popcount (arg % 2 ^ 32)

/-- The bit-by-bit reference loop
`for (i = 0; i < 32; i++) if ((x >> i) & 1) count++;`. -/
def popcountReference (x : Nat) : Nat :=
  (List.range 32).foldl (fun count i => if (x >>> i) &&& 1 = 1 then count + 1 else count) 0

/-- Index of the lowest set bit among the lowest `k` bits of `x`: zero bits
are shifted out until a one is lowest. -/
def ctzScan : Nat → Nat → Nat
  | 0, _ => 0
  | k + 1, x => if x % 2 = 1 then 0 else 1 + ctzScan k (x / 2)

/-- Modelled from the spec: `__builtin_ctz` is a compiler builtin, which the
header uses but does not define; it returns the index of the lowest set bit
of a 32-bit word and has no defined result for zero. -/
def builtin_ctz (x : Nat) : Option Nat :=
  if x = 0 then none else some (ctzScan 32 x)

/-- Binding `#define System_Numerics_BitOperationsTrailingZeroCount(arg)
__builtin_ctz(arg)`; the argument is converted to `unsigned int`. -/
def System_Numerics_BitOperationsTrailingZeroCount (arg : Nat) : Option Nat :=
  builtin_ctz (arg % 2 ^ 32)

/-! ## Allocation: aligned reallocation -/

/-- How a statement ends: control goes on to the next statement, or the
process is terminated. -/
inductive StmtResult where
  | continues
  | terminated
  deriving DecidableEq

/-- How a call of a function returning `α` ends. -/
inductive CallOutcome (α : Type) where
  | returned (value : α)
  | processAborted
  | reachedEndWithoutValue
  deriving DecidableEq

/-- The C library's `abort()`: terminates the process and does not return. -/
def abort : StmtResult := StmtResult.terminated

/-- Function `void *System_Runtime_InteropServices_NativeMemoryAlignedRealloc(void *old,
size_t new_size, size_t align)` with body `abort();`: the only statement is
the call of `abort`, after which the body ends without a `return`. -/
def System_Runtime_InteropServices_NativeMemoryAlignedRealloc
    (old new_size align : Nat) : CallOutcome Nat :=
  match abort with
  | StmtResult.terminated => CallOutcome.processAborted
  | StmtResult.continues => CallOutcome.reachedEndWithoutValue

/-! ## Representation lemmas -/

theorem toBits128_cast (x : Int) : ((toBits128 x : Nat) : Int) = x % 2 ^ 128 := by
  unfold toBits128
  exact Int.toNat_of_nonneg (Int.emod_nonneg _ (by norm_num))

theorem toBits128_lt (x : Int) : toBits128 x < 2 ^ 128 := by
  have h := toBits128_cast x
  have h2 : x % 2 ^ 128 < 2 ^ 128 := Int.emod_lt_of_pos _ (by norm_num)
  have h3 : ((toBits128 x : Nat) : Int) < 2 ^ 128 := by rw [h]; exact h2
  exact_mod_cast h3

theorem toBits128_of_nonneg (x : Int) (h0 : 0 ≤ x) (h1 : x < 2 ^ 128) :
    toBits128 x = x.toNat := by
  unfold toBits128
  rw [Int.emod_eq_of_lt h0 h1]

theorem toBits128_of_neg (x : Int) (h0 : -(2 ^ 128) ≤ x) (h1 : x < 0) :
    toBits128 x = (x + 2 ^ 128).toNat := by
  unfold toBits128
  have : x % 2 ^ 128 = x + 2 ^ 128 := by
    rw [← Int.add_mul_emod_self (a := x) (b := 1) (c := 2 ^ 128)]
    rw [one_mul]
    exact Int.emod_eq_of_lt (by omega) (by omega)
  rw [this]

theorem ofBits128_of_lt (n : Nat) (h : n < 2 ^ 127) : ofBits128 n = (n : Int) := by
  unfold ofBits128
  have : n % 2 ^ 128 = n := Nat.mod_eq_of_lt (by omega)
  rw [this, if_pos h]

theorem ofBits128_of_ge (n : Nat) (h0 : 2 ^ 127 ≤ n) (h1 : n < 2 ^ 128) :
    ofBits128 n = (n : Int) - 2 ^ 128 := by
  unfold ofBits128
  have : n % 2 ^ 128 = n := Nat.mod_eq_of_lt h1
  rw [this, if_neg (by omega)]

theorem ofBits128_inRange (n : Nat) : Int128_inRange (ofBits128 n) := by
  unfold Int128_inRange ofBits128
  have : n % 2 ^ 128 < 2 ^ 128 := Nat.mod_lt _ (by norm_num)
  split <;> omega

theorem wrapS128_of_inRange (a : Int) (h : Int128_inRange a) : wrapS128 a = a := by
  unfold wrapS128
  unfold Int128_inRange at h
  by_cases hs : 0 ≤ a
  · rw [toBits128_of_nonneg a hs (by omega), ofBits128_of_lt _ (by omega)]
    omega
  · rw [toBits128_of_neg a (by omega) (by omega), ofBits128_of_ge _ (by omega) (by omega)]
    omega

/-! ## C1, C2: addition, subtraction, multiplication -/

/-- C1: for unsigned 128-bit operands the addition, subtraction and
multiplication bindings return the exact sum, difference and product reduced
modulo `2 ^ 128`, and the result is again an unsigned 128-bit value. -/
theorem C1_unsigned_arith_wraps (a b : Nat)
    (ha : UInt128_inRange a) (hb : UInt128_inRange b) :
    ((System_UInt128_op_Addition_u128u128 a b : Nat) : Int) = ((a : Int) + b) % 2 ^ 128
    ∧ ((System_UInt128op_Subtraction a b : Nat) : Int) = ((a : Int) - b) % 2 ^ 128
    ∧ ((System_UInt128op_Multiply a b : Nat) : Int) = ((a : Int) * b) % 2 ^ 128
    ∧ System_UInt128_op_Addition_u128u128 a b = (a + b) % 2 ^ 128
    ∧ System_UInt128op_Subtraction a b = (if b ≤ a then a - b else a + 2 ^ 128 - b)
    ∧ System_UInt128op_Multiply a b = (a * b) % 2 ^ 128
    ∧ UInt128_inRange (System_UInt128_op_Addition_u128u128 a b)
    ∧ UInt128_inRange (System_UInt128op_Subtraction a b)
    ∧ UInt128_inRange (System_UInt128op_Multiply a b) := by
  unfold UInt128_inRange at *
  unfold System_UInt128_op_Addition_u128u128 System_UInt128op_Subtraction
    System_UInt128op_Multiply wrapU128
  refine ⟨toBits128_cast _, toBits128_cast _, toBits128_cast _, ?_, ?_, ?_,
    toBits128_lt _, toBits128_lt _, toBits128_lt _⟩
  · have h := toBits128_cast ((a : Int) + b)
    omega
  · split
    · rw [toBits128_of_nonneg _ (by omega) (by omega)]; omega
    · rw [toBits128_of_neg _ (by omega) (by omega)]; omega
  · have h := toBits128_cast ((a : Int) * b)
    exact_mod_cast h

/-- C1 at a concrete pair: `(2 ^ 128 - 1) + 2` wraps to `1`. -/
theorem C1_unsigned_arith_wraps_witness :
    UInt128_inRange (2 ^ 128 - 1) ∧ UInt128_inRange 2
    ∧ System_UInt128_op_Addition_u128u128 (2 ^ 128 - 1) 2 = (2 ^ 128 - 1 + 2) % 2 ^ 128 :=
  ⟨by decide, by decide,
    (C1_unsigned_arith_wraps (2 ^ 128 - 1) 2 (by decide) (by decide)).2.2.2.1⟩

/-- C2 fails as stated: `(2 ^ 127 - 1) + 1`, `-2 ^ 127 - 1` and
`(2 ^ 127 - 1) * 2` are signed overflows; the expressions have no defined
value, in particular not the wrapped one. -/
theorem C2_signed_overflow_counterexample :
    Int128_inRange (2 ^ 127 - 1) ∧ Int128_inRange 1 ∧ Int128_inRange 2
    ∧ Int128_inRange (-(2 ^ 127))
    ∧ System_Int128_op_Addition_i128i128 (2 ^ 127 - 1) 1 = none
    ∧ System_Int128_op_Addition_i128i128 (2 ^ 127 - 1) 1 ≠ some (wrapS128 (2 ^ 127 - 1 + 1))
    ∧ System_Int128op_Subtraction (-(2 ^ 127)) 1 ≠ some (wrapS128 (-(2 ^ 127) - 1))
    ∧ System_Int128op_Multiply (2 ^ 127 - 1) 2 ≠ some (wrapS128 ((2 ^ 127 - 1) * 2)) := by
  have hadd : System_Int128_op_Addition_i128i128 (2 ^ 127 - 1) 1 = none := by
    norm_num [System_Int128_op_Addition_i128i128, signedArith128, Int128_inRange]
  have hsub : System_Int128op_Subtraction (-(2 ^ 127)) 1 = none := by
    norm_num [System_Int128op_Subtraction, signedArith128, Int128_inRange]
  have hmul : System_Int128op_Multiply (2 ^ 127 - 1) 2 = none := by
    norm_num [System_Int128op_Multiply, signedArith128, Int128_inRange]
  rw [hadd, hsub, hmul]
  refine ⟨?_, ?_, ?_, ?_, rfl, nofun, nofun, nofun⟩ <;> norm_num [Int128_inRange]

/-- C2 (amended): for signed 128-bit operands `a`, `b` and each of the three
operations separately: when the exact sum (difference, product) lies in
`[-2 ^ 127, 2 ^ 127 - 1]` the addition (subtraction, multiplication) binding
returns that exact result, which is the only value of the signed range
congruent to it modulo `2 ^ 128`; when it lies outside, the binding has no
defined value. -/
theorem C2_signed_arith_in_range (a b : Int)
    (_ha : Int128_inRange a) (_hb : Int128_inRange b) :
    (Int128_inRange (a + b) →
      System_Int128_op_Addition_i128i128 a b = some (a + b) ∧ wrapS128 (a + b) = a + b)
    ∧ (Int128_inRange (a - b) →
      System_Int128op_Subtraction a b = some (a - b) ∧ wrapS128 (a - b) = a - b)
    ∧ (Int128_inRange (a * b) →
      System_Int128op_Multiply a b = some (a * b) ∧ wrapS128 (a * b) = a * b)
    ∧ (¬ Int128_inRange (a + b) → System_Int128_op_Addition_i128i128 a b = none)
    ∧ (¬ Int128_inRange (a - b) → System_Int128op_Subtraction a b = none)
    ∧ (¬ Int128_inRange (a * b) → System_Int128op_Multiply a b = none)
    ∧ (∀ e r : Int, Int128_inRange e → Int128_inRange r → (r - e) % 2 ^ 128 = 0 → r = e) := by
  unfold System_Int128_op_Addition_i128i128 System_Int128op_Subtraction
    System_Int128op_Multiply signedArith128
  refine ⟨fun h => ⟨if_pos h, wrapS128_of_inRange _ h⟩,
    fun h => ⟨if_pos h, wrapS128_of_inRange _ h⟩,
    fun h => ⟨if_pos h, wrapS128_of_inRange _ h⟩,
    fun h => if_neg h, fun h => if_neg h, fun h => if_neg h, ?_⟩
  intro e r he hr hmod
  unfold Int128_inRange at he hr
  omega

/-- C2 (amended) at the pair `(2 ^ 64, 2 ^ 64)`: the sum is in range and is
returned, the product `2 ^ 128` is not and has no defined value. -/
theorem C2_signed_arith_in_range_witness :
    Int128_inRange (2 ^ 64) ∧ Int128_inRange (2 ^ 64 + 2 ^ 64)
    ∧ ¬ Int128_inRange (2 ^ 64 * 2 ^ 64)
    ∧ System_Int128_op_Addition_i128i128 (2 ^ 64) (2 ^ 64) = some (2 ^ 64 + 2 ^ 64)
    ∧ System_Int128op_Multiply (2 ^ 64) (2 ^ 64) = none :=
  ⟨by norm_num [Int128_inRange], by norm_num [Int128_inRange],
    by norm_num [Int128_inRange],
    ((C2_signed_arith_in_range (2 ^ 64) (2 ^ 64) (by norm_num [Int128_inRange])
      (by norm_num [Int128_inRange])).1 (by norm_num [Int128_inRange])).1,
    (C2_signed_arith_in_range (2 ^ 64) (2 ^ 64) (by norm_num [Int128_inRange])
      (by norm_num [Int128_inRange])).2.2.2.2.2.1 (by norm_num [Int128_inRange])⟩

/-! ## C3, C4: construction from two 64-bit halves -/

theorem wrapU128_natCast (n : Nat) (h : n < 2 ^ 128) : wrapU128 (n : Int) = n := by
  unfold wrapU128
  rw [toBits128_of_nonneg _ (by omega) (by omega)]
  exact Int.toNat_natCast n

theorem or_shl64_eq_add (H L : Nat) (hL : L < 2 ^ 64) :
    L ||| H * 2 ^ 64 = H * 2 ^ 64 + L := by
  rw [Nat.lor_comm, Nat.mul_comm H]
  exact (Nat.mul_add_lt_is_or hL H).symm

theorem uctor_eq (H L : Nat) (hH : H < 2 ^ 64) (hL : L < 2 ^ 64) :
    System_UInt128__ctor_mu128u64u64 H L = H * 2 ^ 64 + L := by
  unfold System_UInt128__ctor_mu128u64u64 shl_u128
  rw [wrapU128_natCast L (by omega), wrapU128_natCast H (by omega), Nat.shiftLeft_eq,
    Nat.mod_eq_of_lt (by omega), or_shl64_eq_add H L hL]

/-- C3: for unsigned 64-bit `H` and `L` the unsigned constructor yields
`H * 2 ^ 64 + L`; shifting that right by 64 gives `H` and masking it with
`2 ^ 64 - 1` gives `L`. -/
theorem C3_unsigned_ctor_halves (H L : Nat)
    (hH : UInt64_inRange H) (hL : UInt64_inRange L) :
    System_UInt128__ctor_mu128u64u64 H L = H * 2 ^ 64 + L
    ∧ System_UInt128op_RightShift (System_UInt128__ctor_mu128u64u64 H L) 64 = some H
    ∧ System_UInt128__ctor_mu128u64u64 H L &&& LOW64_MASK = L
    ∧ UInt128_inRange (System_UInt128__ctor_mu128u64u64 H L) := by
  unfold UInt64_inRange at hH hL
  rw [uctor_eq H L hH hL]
  refine ⟨rfl, ?_, ?_, ?_⟩
  · unfold System_UInt128op_RightShift
    rw [if_pos (by unfold shiftAmountOk; omega)]
    have : (64 : Int).toNat = 64 := rfl
    rw [this, Nat.shiftRight_eq_div_pow]
    congr 1
    omega
  · unfold LOW64_MASK
    rw [Nat.and_pow_two_sub_one_eq_mod]
    omega
  · unfold UInt128_inRange
    omega

/-- C3 at `H = 2 ^ 64 - 1`, `L = 7`. -/
theorem C3_unsigned_ctor_halves_witness :
    UInt64_inRange (2 ^ 64 - 1) ∧ UInt64_inRange 7
    ∧ System_UInt128op_RightShift (System_UInt128__ctor_mu128u64u64 (2 ^ 64 - 1) 7) 64
      = some (2 ^ 64 - 1) :=
  ⟨by decide, by decide,
    (C3_unsigned_ctor_halves (2 ^ 64 - 1) 7 (by decide) (by decide)).2.1⟩

/-! ### Arithmetic right shift on the representation -/

theorem testBit127_of_lt (n : Nat) (h : n < 2 ^ 127) : n.testBit 127 = false :=
  Nat.testBit_lt_two_pow h

theorem testBit127_of_ge (n : Nat) (h0 : 2 ^ 127 ≤ n) (h1 : n < 2 ^ 128) :
    n.testBit 127 = true := by
  rw [Nat.testBit_to_div_mod]
  have : n / 2 ^ 127 % 2 = 1 := by omega
  rw [this]
  rfl

theorem sar128_of_lt (n s : Nat) (h : n < 2 ^ 127) : sar128 n s = n / 2 ^ s := by
  unfold sar128
  rw [testBit127_of_lt n h, Nat.shiftRight_eq_div_pow]
  simp

theorem pow_split128 (s : Nat) (hs : s < 128) : 2 ^ (128 - s) * 2 ^ s = 2 ^ 128 := by
  rw [← pow_add]
  congr 1
  omega

theorem sar128_of_ge (n s : Nat) (h0 : 2 ^ 127 ≤ n) (h1 : n < 2 ^ 128) (hs : s < 128) :
    sar128 n s + 2 ^ (128 - s) = 2 ^ 128 + n / 2 ^ s := by
  unfold sar128
  have hp := pow_split128 s hs
  have hlt : n / 2 ^ s < 2 ^ (128 - s) := by
    rw [Nat.div_lt_iff_lt_mul (by positivity)]
    omega
  rw [testBit127_of_ge n h0 h1, Nat.shiftRight_eq_div_pow, if_pos rfl, Nat.shiftLeft_eq,
    Nat.lor_comm, Nat.mul_comm (2 ^ s - 1), ← Nat.mul_add_lt_is_or hlt, Nat.mul_sub, hp]
  have h1' : 1 ≤ 2 ^ s := Nat.one_le_two_pow
  have : 2 ^ (128 - s) * 1 ≤ 2 ^ 128 := by
    rw [← hp]; exact Nat.mul_le_mul_left _ h1'
  omega

theorem sar128_signed (a : Int) (s : Nat) (h0 : -(2 ^ 127) ≤ a) (h1 : a < 2 ^ 127)
    (hs : s < 128) : ofBits128 (sar128 (toBits128 a) s) = a / 2 ^ s := by
  by_cases hneg : 0 ≤ a
  · rw [toBits128_of_nonneg a hneg (by omega), sar128_of_lt _ _ (by omega)]
    have hd : a.toNat / 2 ^ s < 2 ^ 127 :=
      lt_of_le_of_lt (Nat.div_le_self _ _) (by omega)
    rw [ofBits128_of_lt _ hd]
    push_cast
    rw [Int.toNat_of_nonneg hneg]
  · have hn : toBits128 a = (a + 2 ^ 128).toNat := toBits128_of_neg a (by omega) (by omega)
    have hn0 : 2 ^ 127 ≤ toBits128 a := by omega
    have hn1 : toBits128 a < 2 ^ 128 := by omega
    have key := sar128_of_ge (toBits128 a) s hn0 hn1 hs
    have hp := pow_split128 s hs
    have hcast : ((toBits128 a : Nat) : Int) = a + 2 ^ (128 - s) * 2 ^ s := by
      have : ((2 : Int) ^ (128 - s) * 2 ^ s) = 2 ^ 128 := by exact_mod_cast hp
      rw [this]; omega
    have hdiv : (((toBits128 a / 2 ^ s : Nat)) : Int) = a / 2 ^ s + 2 ^ (128 - s) := by
      push_cast
      rw [hcast, Int.add_mul_ediv_right _ _ (by positivity)]
    have hq1 : a / 2 ^ s < 0 := Int.ediv_neg' (by omega) (by positivity)
    have hq0 : -(2 ^ 127) ≤ a / 2 ^ s := by
      apply Int.le_ediv_of_mul_le (by positivity)
      have : (1 : Int) ≤ 2 ^ s := by exact_mod_cast Nat.one_le_two_pow
      nlinarith
    have keyZ : ((sar128 (toBits128 a) s : Nat) : Int) = 2 ^ 128 + a / 2 ^ s := by
      have := congrArg (fun k : Nat => (k : Int)) key
      simp only [Nat.cast_add, Nat.cast_pow, Nat.cast_ofNat] at this
      rw [hdiv] at this
      linarith
    rw [ofBits128_of_ge _ (by omega) (by omega), keyZ]
    ring

theorem toBits128_ofBits128 (n : Nat) (h : n < 2 ^ 128) : toBits128 (ofBits128 n) = n := by
  by_cases hn : n < 2 ^ 127
  · rw [ofBits128_of_lt n hn, toBits128_of_nonneg _ (by omega) (by omega)]
    exact Int.toNat_natCast n
  · rw [ofBits128_of_ge n (by omega) h, toBits128_of_neg _ (by omega) (by omega)]
    omega

theorem wrapS128_natCast (n : Nat) (h : n < 2 ^ 127) : wrapS128 (n : Int) = n :=
  wrapS128_of_inRange _ (by unfold Int128_inRange; omega)

theorem toBits128_natCast (n : Nat) (h : n < 2 ^ 128) : toBits128 (n : Int) = n := by
  rw [toBits128_of_nonneg _ (by omega) (by omega)]
  exact Int.toNat_natCast n

theorem sctor_eq (H L : Nat) (hH : H < 2 ^ 64) (hL : L < 2 ^ 64) :
    System_Int128__ctor_mu128u64u64 H L = ofBits128 (H * 2 ^ 64 + L) := by
  unfold System_Int128__ctor_mu128u64u64 shl_i128 or_i128
  rw [wrapS128_natCast L (by omega), wrapS128_natCast H (by omega),
    toBits128_natCast L (by omega), toBits128_natCast H (by omega), Nat.shiftLeft_eq,
    Nat.mod_eq_of_lt (by omega), toBits128_ofBits128 _ (by omega), or_shl64_eq_add H L hL]

theorem sctor_value (H L : Nat) (hH : H < 2 ^ 64) (hL : L < 2 ^ 64) :
    System_Int128__ctor_mu128u64u64 H L
      = if H < 2 ^ 63 then ((H * 2 ^ 64 + L : Nat) : Int)
        else ((H * 2 ^ 64 + L : Nat) : Int) - 2 ^ 128 := by
  rw [sctor_eq H L hH hL]
  split
  · exact ofBits128_of_lt _ (by omega)
  · exact ofBits128_of_ge _ (by omega) (by omega)

theorem sctor_shift64 (H L : Nat) (hH : H < 2 ^ 64) (hL : L < 2 ^ 64) :
    System_Int128op_RightShift (System_Int128__ctor_mu128u64u64 H L) 64
      = some (if H < 2 ^ 63 then (H : Int) else (H : Int) - 2 ^ 64) := by
  have hv := sctor_value H L hH hL
  have hr := ofBits128_inRange (H * 2 ^ 64 + L)
  rw [← sctor_eq H L hH hL] at hr
  unfold Int128_inRange at hr
  unfold System_Int128op_RightShift
  rw [if_pos (by unfold shiftAmountOk; omega)]
  have h64 : (64 : Int).toNat = 64 := rfl
  rw [h64, sar128_signed _ 64 hr.1 hr.2 (by omega), hv]
  congr 1
  split <;> omega

/-- C4 fails as stated: with `H = 2 ^ 63` (top bit set) and `L = 0` the
constructed value is negative and shifting it right by 64 gives `-2 ^ 63`,
not `H`. -/
theorem C4_signed_ctor_counterexample :
    UInt64_inRange (2 ^ 63) ∧ UInt64_inRange 0
    ∧ System_Int128op_RightShift (System_Int128__ctor_mu128u64u64 (2 ^ 63) 0) 64
        = some (-(2 ^ 63))
    ∧ System_Int128op_RightShift (System_Int128__ctor_mu128u64u64 (2 ^ 63) 0) 64
        ≠ some (((2 ^ 63 : Nat) : Int)) := by
  have h := sctor_shift64 (2 ^ 63) 0 (by decide) (by decide)
  rw [if_neg (by decide)] at h
  rw [h]
  refine ⟨by decide, by decide, ?_, ?_⟩
  · norm_num
  · intro hc
    have := Option.some.inj hc
    norm_num at this

/-- C4 (amended): for unsigned 64-bit `H` and `L` the signed constructor
yields the value whose representation has `H` as its high and `L` as its low
64 bits; masking its low 64 bits gives `L`; shifting it right by 64 gives the
sign extension of `H`, which is `H` when `H < 2 ^ 63` and `H - 2 ^ 64` when
the top bit of `H` is set. -/
theorem C4_signed_ctor_halves (H L : Nat)
    (hH : UInt64_inRange H) (hL : UInt64_inRange L) :
    toBits128 (System_Int128__ctor_mu128u64u64 H L) = H * 2 ^ 64 + L
    ∧ toBits128 (System_Int128__ctor_mu128u64u64 H L) / 2 ^ 64 = H
    ∧ toBits128 (System_Int128__ctor_mu128u64u64 H L) % 2 ^ 64 = L
    ∧ and_i128 (System_Int128__ctor_mu128u64u64 H L) (LOW64_MASK : Nat) = (L : Int)
    ∧ System_Int128op_RightShift (System_Int128__ctor_mu128u64u64 H L) 64
        = some (if H < 2 ^ 63 then (H : Int) else (H : Int) - 2 ^ 64)
    ∧ Int128_inRange (System_Int128__ctor_mu128u64u64 H L) := by
  unfold UInt64_inRange at hH hL
  have hb : toBits128 (System_Int128__ctor_mu128u64u64 H L) = H * 2 ^ 64 + L := by
    rw [sctor_eq H L hH hL, toBits128_ofBits128 _ (by omega)]
  refine ⟨hb, ?_, ?_, ?_, sctor_shift64 H L hH hL, ?_⟩
  · rw [hb]; omega
  · rw [hb]; omega
  · unfold and_i128 LOW64_MASK
    rw [hb, toBits128_natCast _ (by omega), Nat.and_pow_two_sub_one_eq_mod,
      ofBits128_of_lt _ (by omega)]
    congr 1
    omega
  · rw [sctor_eq H L hH hL]
    exact ofBits128_inRange _

/-- C4 (amended) at `H = 2 ^ 64 - 1`, `L = 5`: the shift gives `-1`. -/
theorem C4_signed_ctor_halves_witness :
    UInt64_inRange (2 ^ 64 - 1) ∧ UInt64_inRange 5
    ∧ System_Int128op_RightShift (System_Int128__ctor_mu128u64u64 (2 ^ 64 - 1) 5) 64
        = some (if 2 ^ 64 - 1 < 2 ^ 63 then ((2 ^ 64 - 1 : Nat) : Int)
            else ((2 ^ 64 - 1 : Nat) : Int) - 2 ^ 64) :=
  ⟨by decide, by decide,
    (C4_signed_ctor_halves (2 ^ 64 - 1) 5 (by decide) (by decide)).2.2.2.2.1⟩

/-! ## C5, C6, C7: atomics -/

theorem Mem.store_same {α : Type} (m : Mem α) (p : Nat) (v : α) : m.store p v p = v := by
  unfold Mem.store
  rw [if_pos rfl]

theorem Mem.store_other {α : Type} (m : Mem α) (p q : Nat) (v : α) (h : q ≠ p) :
    m.store p v q = m q := by
  unfold Mem.store
  rw [if_neg h]

/-- C5: on a cell holding `c`, compare-and-exchange with candidate `v` and
comparand `e` returns `c` in both cases; the cell holds `v` afterwards when
`c = e` and still holds `c` when `c ≠ e`; no other cell changes. -/
theorem C5_compare_exchange_step {α : Type} [DecidableEq α]
    (m : Mem α) (addr : Nat) (c v e : α) (hc : m addr = c) :
    (System_Threading_InterlockedCompareExchange m addr v e).1 = c
    ∧ (c = e → (System_Threading_InterlockedCompareExchange m addr v e).2 addr = v)
    ∧ (c ≠ e → (System_Threading_InterlockedCompareExchange m addr v e).2 addr = c)
    ∧ (∀ q, q ≠ addr → (System_Threading_InterlockedCompareExchange m addr v e).2 q = m q) := by
  unfold System_Threading_InterlockedCompareExchange atomic_compare_exchange
  by_cases h : m addr = e
  · simp only [if_pos h]
    refine ⟨by rw [← hc, h], fun _ => Mem.store_same m addr v, fun hne => ?_,
      fun q hq => Mem.store_other m addr q v hq⟩
    exact absurd (hc ▸ h) hne
  · simp only [if_neg h]
    exact ⟨hc, fun he => absurd (hc.trans he) h, fun _ => hc, fun _ _ => trivial⟩

/-- C5 on a cell holding `5`: a matching comparand swaps in `9`. -/
theorem C5_compare_exchange_step_witness :
    (fun _ : Nat => (5 : Nat)) 0 = 5
    ∧ (System_Threading_InterlockedCompareExchange (fun _ : Nat => (5 : Nat)) 0 9 5).1 = 5
    ∧ (System_Threading_InterlockedCompareExchange (fun _ : Nat => (5 : Nat)) 0 9 5).2 0 = 9 :=
  ⟨rfl, (C5_compare_exchange_step (fun _ : Nat => (5 : Nat)) 0 5 9 5 rfl).1,
    (C5_compare_exchange_step (fun _ : Nat => (5 : Nat)) 0 5 9 5 rfl).2.1 rfl⟩

/-- C6: on a cell holding `c`, exchange with the new value `n` leaves the
cell holding `n` and returns `c`; no other cell changes. -/
theorem C6_exchange_step {α : Type} (m : Mem α) (addr : Nat) (c n : α) (hc : m addr = c) :
    (System_Threading_InterlockedExchange m addr n).1 = c
    ∧ (System_Threading_InterlockedExchange m addr n).2 addr = n
    ∧ (∀ q, q ≠ addr → (System_Threading_InterlockedExchange m addr n).2 q = m q) := by
  unfold System_Threading_InterlockedExchange atomic_exchange
  exact ⟨hc, Mem.store_same m addr n, fun q hq => Mem.store_other m addr q n hq⟩

/-- C6 on a cell holding `5`: exchanging in `9` returns `5`. -/
theorem C6_exchange_step_witness :
    (fun _ : Nat => (5 : Nat)) 3 = 5
    ∧ (System_Threading_InterlockedExchange (fun _ : Nat => (5 : Nat)) 3 9).1 = 5
    ∧ (System_Threading_InterlockedExchange (fun _ : Nat => (5 : Nat)) 3 9).2 3 = 9 :=
  ⟨rfl, (C6_exchange_step (fun _ : Nat => (5 : Nat)) 3 5 9 rfl).1,
    (C6_exchange_step (fun _ : Nat => (5 : Nat)) 3 5 9 rfl).2.1⟩

theorem race_no_match {α : Type} [DecidableEq α] (addr : Nat) (e : α) (vs : List α) :
    ∀ m : Mem α, m addr ≠ e → raceCompareExchange addr e m vs = (m, 0) := by
  induction vs with
  | nil => intro m _; rfl
  | cons v vs ih =>
    intro m hm
    have hstep : atomic_compare_exchange m addr e v = ⟨m, m addr, false⟩ := by
      unfold atomic_compare_exchange
      rw [if_neg hm]
    simp only [raceCompareExchange, casSucceeds,
      System_Threading_InterlockedCompareExchange, hstep, ih m hm]
    rfl

theorem race_match {α : Type} [DecidableEq α] (addr : Nat) (e v : α) (vs : List α)
    (m : Mem α) (hm : m addr = e) (hv : v ≠ e) :
    raceCompareExchange addr e m (v :: vs) = (m.store addr v, 1) := by
  have hstep : atomic_compare_exchange m addr e v = ⟨m.store addr v, e, true⟩ := by
    unfold atomic_compare_exchange
    rw [if_pos hm]
  have hrest := race_no_match addr e vs (m.store addr v)
    (by rw [Mem.store_same]; exact hv)
  simp only [raceCompareExchange, casSucceeds,
    System_Threading_InterlockedCompareExchange, hstep, hrest]
  rfl

/-- C7 fails as stated: one call whose comparand `1` differs from the cell's
content `0` does not swap (no call succeeds), and two calls with comparand
`0` and candidate `0` on a cell holding `0` both swap. -/
theorem C7_race_counterexample :
    (raceCompareExchange 0 (1 : Nat) (fun _ => 0) [2]).2 = 0
    ∧ (raceCompareExchange 0 (0 : Nat) (fun _ => 0) [0, 0]).2 = 2 := by
  constructor <;> rfl

/-- C7 (amended): when the cell holds the comparand `e` before the race and
every candidate differs from `e`, then for every number `N ≥ 1` of racing
calls and every order in which their atomic steps reach the cell, exactly one
call performs the swap: the first one in that order, whose candidate the cell
holds afterwards. -/
theorem C7_race_exactly_one {α : Type} [DecidableEq α] (addr : Nat) (e : α)
    (m : Mem α) (vs : List α) (hm : m addr = e) (hN : 1 ≤ vs.length)
    (hvs : ∀ w ∈ vs, w ≠ e) :
    ∀ order : List α, order.Perm vs →
      (raceCompareExchange addr e m order).2 = 1
      ∧ some ((raceCompareExchange addr e m order).1 addr) = order.head? := by
  intro order hp
  have hlen : order.length = vs.length := hp.length_eq
  cases order with
  | nil => simp at hlen; omega
  | cons v rest =>
    have hv : v ≠ e := hvs v (hp.subset (List.mem_cons_self v rest))
    rw [race_match addr e v rest m hm hv]
    refine ⟨rfl, ?_⟩
    show some (m.store addr v addr) = some v
    rw [Mem.store_same]

/-- C7 (amended) for three racing calls with candidates `7, 8, 9` on a cell
holding the comparand `0`, in the order `9, 7, 8`. -/
theorem C7_race_exactly_one_witness :
    (raceCompareExchange 0 (0 : Nat) (fun _ => 0) [9, 7, 8]).2 = 1 :=
  (C7_race_exactly_one 0 (0 : Nat) (fun _ => 0) [7, 8, 9] rfl (by decide) (by decide)
    [9, 7, 8] (by decide)).1

/-! ## C8: right shifts -/

theorem floor_rat_div_two_pow (x : Int) (s : Nat) :
    ⌊(x : ℚ) / (2 : ℚ) ^ s⌋ = x / 2 ^ s := by
  have h := Rat.floor_intCast_div_natCast x (2 ^ s)
  push_cast at h
  exact h

/-- C8: for a shift amount `0 ≤ s < 128` the unsigned right shift of an
unsigned 128-bit `a` is `floor (a / 2 ^ s)` with the `s` vacated high bits
zero, and the signed right shift of a signed 128-bit `x` is
`floor (x / 2 ^ s)`, the arithmetic shift: a negative `x` stays negative. -/
theorem C8_right_shift (a : Nat) (x : Int) (s : Nat)
    (ha : UInt128_inRange a) (hx : Int128_inRange x) (hs : s < 128) :
    System_UInt128op_RightShift a (s : Int) = some (a / 2 ^ s)
    ∧ ((a / 2 ^ s : Nat) : Int) = ⌊((a : Int) : ℚ) / (2 : ℚ) ^ s⌋
    ∧ a / 2 ^ s < 2 ^ (128 - s)
    ∧ System_Int128op_RightShift x (s : Int) = some (x / 2 ^ s)
    ∧ System_Int128op_RightShift x (s : Int) = some (Int.fdiv x (2 ^ s))
    ∧ x / 2 ^ s = ⌊(x : ℚ) / (2 : ℚ) ^ s⌋
    ∧ (x < 0 → x / 2 ^ s < 0)
    ∧ (0 ≤ x → 0 ≤ x / 2 ^ s) := by
  unfold UInt128_inRange at ha
  unfold Int128_inRange at hx
  have hok : shiftAmountOk (s : Int) := by unfold shiftAmountOk; omega
  have hsar : System_Int128op_RightShift x (s : Int) = some (x / 2 ^ s) := by
    unfold System_Int128op_RightShift
    rw [if_pos hok, Int.toNat_natCast, sar128_signed x s hx.1 hx.2 hs]
  refine ⟨?_, ?_, ?_, hsar, ?_, (floor_rat_div_two_pow x s).symm, ?_, ?_⟩
  · unfold System_UInt128op_RightShift
    rw [if_pos hok, Int.toNat_natCast, Nat.shiftRight_eq_div_pow]
  · rw [floor_rat_div_two_pow]
    push_cast
    rfl
  · rw [Nat.div_lt_iff_lt_mul (by positivity), pow_split128 s hs]
    exact ha
  · rw [hsar, Int.fdiv_eq_ediv x (by positivity)]
  · intro hneg
    exact Int.ediv_neg' hneg (by positivity)
  · intro hpos
    exact Int.ediv_nonneg hpos (by positivity)

/-- C8 at `a = 2 ^ 128 - 1`, `x = -5`, `s = 1`: the signed shift gives `-3`. -/
theorem C8_right_shift_witness :
    UInt128_inRange (2 ^ 128 - 1) ∧ Int128_inRange (-5) ∧ 1 < 128
    ∧ System_Int128op_RightShift (-5) ((1 : Nat) : Int) = some (-5 / 2 ^ 1) :=
  ⟨by decide, by norm_num [Int128_inRange], by decide,
    (C8_right_shift (2 ^ 128 - 1) (-5) 1 (by decide) (by norm_num [Int128_inRange])
      (by decide)).2.2.2.1⟩

/-! ## C9: equality and less-than -/

/-- C9: on unsigned 128-bit `a, b, c` and on signed 128-bit `x, y, z` the
less-than bindings hold exactly when the left value is numerically smaller,
the equality bindings exactly when the values are equal; less-than is
irreflexive and transitive, and exactly one of `a < b`, `a == b`, `b < a`
holds.  A comparison holds when its C result is non-zero; the result is
always `0` or `1`. -/
theorem C9_comparisons_total_order (a b c : Nat) (x y z : Int)
    (_ha : UInt128_inRange a) (_hb : UInt128_inRange b) (_hc : UInt128_inRange c)
    (_hx : Int128_inRange x) (_hy : Int128_inRange y) (_hz : Int128_inRange z) :
    (System_UInt128op_LessThan a b ≠ 0 ↔ a < b)
    ∧ (System_UInt128_op_Equality_u128u128 a b ≠ 0 ↔ a = b)
    ∧ System_UInt128op_LessThan a a = 0
    ∧ (System_UInt128op_LessThan a b ≠ 0 → System_UInt128op_LessThan b c ≠ 0 →
        System_UInt128op_LessThan a c ≠ 0)
    ∧ ((System_UInt128op_LessThan a b ≠ 0 ∧ System_UInt128_op_Equality_u128u128 a b = 0
          ∧ System_UInt128op_LessThan b a = 0)
        ∨ (System_UInt128op_LessThan a b = 0 ∧ System_UInt128_op_Equality_u128u128 a b ≠ 0
          ∧ System_UInt128op_LessThan b a = 0)
        ∨ (System_UInt128op_LessThan a b = 0 ∧ System_UInt128_op_Equality_u128u128 a b = 0
          ∧ System_UInt128op_LessThan b a ≠ 0))
    ∧ (System_UInt128op_LessThan a b = 0 ∨ System_UInt128op_LessThan a b = 1)
    ∧ (System_UInt128_op_Equality_u128u128 a b = 0
        ∨ System_UInt128_op_Equality_u128u128 a b = 1)
    ∧ (System_Int128op_LessThan x y ≠ 0 ↔ x < y)
    ∧ (System_Int128_op_Equality_i128i128 x y ≠ 0 ↔ x = y)
    ∧ System_Int128op_LessThan x x = 0
    ∧ (System_Int128op_LessThan x y ≠ 0 → System_Int128op_LessThan y z ≠ 0 →
        System_Int128op_LessThan x z ≠ 0)
    ∧ ((System_Int128op_LessThan x y ≠ 0 ∧ System_Int128_op_Equality_i128i128 x y = 0
          ∧ System_Int128op_LessThan y x = 0)
        ∨ (System_Int128op_LessThan x y = 0 ∧ System_Int128_op_Equality_i128i128 x y ≠ 0
          ∧ System_Int128op_LessThan y x = 0)
        ∨ (System_Int128op_LessThan x y = 0 ∧ System_Int128_op_Equality_i128i128 x y = 0
          ∧ System_Int128op_LessThan y x ≠ 0))
    ∧ (System_Int128op_LessThan x y = 0 ∨ System_Int128op_LessThan x y = 1)
    ∧ (System_Int128_op_Equality_i128i128 x y = 0
        ∨ System_Int128_op_Equality_i128i128 x y = 1) := by
  unfold System_UInt128op_LessThan System_UInt128_op_Equality_u128u128
    System_Int128op_LessThan System_Int128_op_Equality_i128i128
  refine ⟨?_, ?_, ?_, ?_, ?_, ?_, ?_, ?_, ?_, ?_, ?_, ?_, ?_, ?_⟩ <;>
    (repeat' split) <;> omega

/-- C9 at `a, b, c = 1, 2, 3` and `x, y, z = -2 ^ 127, -1, 2 ^ 127 - 1`:
the negative values compare below the positive one. -/
theorem C9_comparisons_total_order_witness :
    UInt128_inRange 1 ∧ UInt128_inRange 2 ∧ UInt128_inRange 3
    ∧ Int128_inRange (-(2 ^ 127)) ∧ Int128_inRange (-1) ∧ Int128_inRange (2 ^ 127 - 1)
    ∧ (System_Int128op_LessThan (-(2 ^ 127)) (-1) ≠ 0 ↔ -(2 ^ 127) < (-1 : Int)) :=
  ⟨by decide, by decide, by decide, by norm_num [Int128_inRange],
    by norm_num [Int128_inRange], by norm_num [Int128_inRange],
    (C9_comparisons_total_order 1 2 3 (-(2 ^ 127)) (-1) (2 ^ 127 - 1) (by decide)
      (by decide) (by decide) (by norm_num [Int128_inRange])
      (by norm_num [Int128_inRange]) (by norm_num [Int128_inRange])).2.2.2.2.2.2.2.1⟩

/-! ## C10: conversions -/

theorem and_shl_mask (x m j : Nat) : x &&& (m <<< j) = ((x >>> j) &&& m) <<< j := by
  apply Nat.eq_of_testBit_eq
  intro i
  rw [Nat.testBit_and, Nat.testBit_shiftLeft, Nat.testBit_shiftLeft, Nat.testBit_and,
    Nat.testBit_shiftRight]
  by_cases h : j ≤ i
  · have : j + (i - j) = i := by omega
    simp [h, this]
  · simp [h]

theorem and_byte_mask (x j : Nat) : x &&& (255 <<< j) = (x / 2 ^ j % 256) * 2 ^ j := by
  rw [and_shl_mask, Nat.shiftLeft_eq, Nat.shiftRight_eq_div_pow]
  have : (255 : Nat) = 2 ^ 8 - 1 := by norm_num
  rw [this, Nat.and_pow_two_sub_one_eq_mod]

theorem or_eq_add_of_lt (a b i : Nat) (hb : b < 2 ^ i) : b ||| a * 2 ^ i = a * 2 ^ i + b := by
  rw [Nat.lor_comm, Nat.mul_comm a]
  exact (Nat.mul_add_lt_is_or hb a).symm

theorem bswap_32_closed (x : Nat) :
    bswap_32 x = x % 256 * 2 ^ 24 + x / 2 ^ 8 % 256 * 2 ^ 16 + x / 2 ^ 16 % 256 * 2 ^ 8
      + x / 2 ^ 24 % 256 := by
  unfold bswap_32
  have a3 : x &&& 0xff000000 = x / 2 ^ 24 % 256 * 2 ^ 24 := and_byte_mask x 24
  have a2 : x &&& 0x00ff0000 = x / 2 ^ 16 % 256 * 2 ^ 16 := and_byte_mask x 16
  have a1 : x &&& 0x0000ff00 = x / 2 ^ 8 % 256 * 2 ^ 8 := and_byte_mask x 8
  have a0 : x &&& 0x000000ff = x % 256 := Nat.and_pow_two_sub_one_eq_mod x 8
  rw [a3, a2, a1, a0]
  simp only [Nat.shiftLeft_eq, Nat.shiftRight_eq_div_pow]
  generalize hc3 : x / 2 ^ 24 % 256 = c3
  generalize hc2 : x / 2 ^ 16 % 256 = c2
  generalize hc1 : x / 2 ^ 8 % 256 = c1
  generalize hc0 : x % 256 = c0
  have h1 : c1 < 256 := by omega
  have h0 : c0 < 256 := by omega
  have e3 : c3 * 2 ^ 24 / 2 ^ 24 = c3 := by omega
  have e2 : c2 * 2 ^ 16 / 2 ^ 8 = c2 * 2 ^ 8 := by omega
  have e1 : c1 * 2 ^ 8 * 2 ^ 8 = c1 * 2 ^ 16 := by omega
  have h3 : c3 < 256 := by omega
  have h2 : c2 < 256 := by omega
  rw [e3, e2, e1, or_eq_add_of_lt c2 c3 8 (by omega),
    or_eq_add_of_lt c1 _ 16 (by omega), or_eq_add_of_lt c0 _ 24 (by omega)]
  omega

theorem bswap_32_bytes (b0 b1 b2 b3 : Nat) (h0 : b0 < 256) (h1 : b1 < 256) (h2 : b2 < 256)
    (h3 : b3 < 256) :
    bswap_32 (b0 + b1 * 2 ^ 8 + b2 * 2 ^ 16 + b3 * 2 ^ 24)
      = b3 + b2 * 2 ^ 8 + b1 * 2 ^ 16 + b0 * 2 ^ 24 := by
  rw [bswap_32_closed]
  have e0 : (b0 + b1 * 2 ^ 8 + b2 * 2 ^ 16 + b3 * 2 ^ 24) % 256 = b0 := by omega
  have e1 : (b0 + b1 * 2 ^ 8 + b2 * 2 ^ 16 + b3 * 2 ^ 24) / 2 ^ 8 % 256 = b1 := by omega
  have e2 : (b0 + b1 * 2 ^ 8 + b2 * 2 ^ 16 + b3 * 2 ^ 24) / 2 ^ 16 % 256 = b2 := by omega
  have e3 : (b0 + b1 * 2 ^ 8 + b2 * 2 ^ 16 + b3 * 2 ^ 24) / 2 ^ 24 % 256 = b3 := by omega
  rw [e0, e1, e2, e3]
  omega

theorem word32_bytes (x : Nat) (hx : x < 2 ^ 32) :
    x = x % 256 + x / 2 ^ 8 % 256 * 2 ^ 8 + x / 2 ^ 16 % 256 * 2 ^ 16
      + x / 2 ^ 24 % 256 * 2 ^ 24 := by
  omega

theorem bswap_32_lt (x : Nat) : bswap_32 x < 2 ^ 32 := by
  rw [bswap_32_closed]
  omega

theorem bswap_32_involutive (x : Nat) (hx : x < 2 ^ 32) : bswap_32 (bswap_32 x) = x := by
  have hb := word32_bytes x hx
  generalize hc0 : x % 256 = c0 at hb
  generalize hc1 : x / 2 ^ 8 % 256 = c1 at hb
  generalize hc2 : x / 2 ^ 16 % 256 = c2 at hb
  generalize hc3 : x / 2 ^ 24 % 256 = c3 at hb
  have h0 : c0 < 256 := by omega
  have h1 : c1 < 256 := by omega
  have h2 : c2 < 256 := by omega
  have h3 : c3 < 256 := by omega
  rw [hb, bswap_32_bytes c0 c1 c2 c3 h0 h1 h2 h3, bswap_32_bytes c3 c2 c1 c0 h3 h2 h1 h0]

theorem byteAt_word32 (b0 b1 b2 b3 : Nat) (h0 : b0 < 256) (h1 : b1 < 256) (h2 : b2 < 256)
    (h3 : b3 < 256) :
    byteAt (b0 + b1 * 2 ^ 8 + b2 * 2 ^ 16 + b3 * 2 ^ 24) 0 = b0
    ∧ byteAt (b0 + b1 * 2 ^ 8 + b2 * 2 ^ 16 + b3 * 2 ^ 24) 1 = b1
    ∧ byteAt (b0 + b1 * 2 ^ 8 + b2 * 2 ^ 16 + b3 * 2 ^ 24) 2 = b2
    ∧ byteAt (b0 + b1 * 2 ^ 8 + b2 * 2 ^ 16 + b3 * 2 ^ 24) 3 = b3 := by
  unfold byteAt
  refine ⟨?_, ?_, ?_, ?_⟩ <;> norm_num <;> omega

theorem bswap_32_byteAt (x i : Nat) (hx : x < 2 ^ 32) (hi : i < 4) :
    byteAt (bswap_32 x) i = byteAt x (3 - i) := by
  have hb := word32_bytes x hx
  generalize hc0 : x % 256 = c0 at hb
  generalize hc1 : x / 2 ^ 8 % 256 = c1 at hb
  generalize hc2 : x / 2 ^ 16 % 256 = c2 at hb
  generalize hc3 : x / 2 ^ 24 % 256 = c3 at hb
  have h0 : c0 < 256 := by omega
  have h1 : c1 < 256 := by omega
  have h2 : c2 < 256 := by omega
  have h3 : c3 < 256 := by omega
  rw [hb, bswap_32_bytes c0 c1 c2 c3 h0 h1 h2 h3]
  obtain ⟨p0, p1, p2, p3⟩ := byteAt_word32 c0 c1 c2 c3 h0 h1 h2 h3
  obtain ⟨q0, q1, q2, q3⟩ := byteAt_word32 c3 c2 c1 c0 h3 h2 h1 h0
  interval_cases i
  · rw [q0, p3]
  · rw [q1, p2]
  · rw [q2, p1]
  · rw [q3, p0]

/-- C11: the byte swap is self-inverse on every 32-bit word. -/
theorem C11_bswap_self_inverse (x : Nat) (hx : UInt32_inRange x) :
    System_Buffers_Binary_BinaryPrimitivesReverseEndianness
      (System_Buffers_Binary_BinaryPrimitivesReverseEndianness x) = x := by
  unfold UInt32_inRange at hx
  unfold System_Buffers_Binary_BinaryPrimitivesReverseEndianness
  rw [Nat.mod_eq_of_lt hx, Nat.mod_eq_of_lt (bswap_32_lt x)]
  exact bswap_32_involutive x hx

/-- C11 at `x = 0xDEADBEEF`. -/
theorem C11_bswap_self_inverse_witness :
    UInt32_inRange 0xDEADBEEF
    ∧ System_Buffers_Binary_BinaryPrimitivesReverseEndianness
        (System_Buffers_Binary_BinaryPrimitivesReverseEndianness 0xDEADBEEF) = 0xDEADBEEF :=
  ⟨by decide, C11_bswap_self_inverse 0xDEADBEEF (by decide)⟩

/-- C12: for a 32-bit word `x` and a byte index `i` in `0..3`, byte `i` of
the byte swap of `x` is byte `3 - i` of `x`; the result is a 32-bit word;
`0x11223344` maps to `0x44332211`. -/
theorem C12_bswap_reverses_bytes (x i : Nat) (hx : UInt32_inRange x) (hi : i ≤ 3) :
    byteAt (System_Buffers_Binary_BinaryPrimitivesReverseEndianness x) i = byteAt x (3 - i)
    ∧ UInt32_inRange (System_Buffers_Binary_BinaryPrimitivesReverseEndianness x)
    ∧ System_Buffers_Binary_BinaryPrimitivesReverseEndianness 0x11223344 = 0x44332211 := by
  unfold UInt32_inRange at *
  unfold System_Buffers_Binary_BinaryPrimitivesReverseEndianness
  rw [Nat.mod_eq_of_lt hx]
  exact ⟨bswap_32_byteAt x i hx (by omega), bswap_32_lt x, by decide⟩

/-- C12 at `x = 0x11223344`, `i = 1`: byte `1` of the result is `0x33`. -/
theorem C12_bswap_reverses_bytes_witness :
    UInt32_inRange 0x11223344 ∧ 1 ≤ 3
    ∧ byteAt (System_Buffers_Binary_BinaryPrimitivesReverseEndianness 0x11223344) 1
        = byteAt 0x11223344 (3 - 1) :=
  ⟨by decide, by decide, (C12_bswap_reverses_bytes 0x11223344 1 (by decide) (by decide)).1⟩

/-! ## C13, C14: population count and trailing-zero count -/

theorem popcountBits_eq_filter (k : Nat) :
    ∀ x : Nat, popcountBits k x = ((List.range k).filter (fun i => x.testBit i)).length := by
  induction k with
  | zero => intro x; rfl
  | succ k ih =>
    intro x
    have hcomp : ((fun i => x.testBit i) ∘ Nat.succ) = (fun i => (x / 2).testBit i) := by
      funext i
      simp [Nat.testBit_succ]
    rw [List.range_succ_eq_map, List.filter_cons, List.filter_map, hcomp]
    unfold popcountBits
    rw [ih (x / 2), Nat.testBit_zero]
    rcases Nat.mod_two_eq_zero_or_one x with h | h
    · simp [h]
    · simp [h]; omega

theorem foldl_count (P : Nat → Prop) [DecidablePred P] (l : List Nat) :
    ∀ c : Nat, l.foldl (fun count i => if P i then count + 1 else count) c
      = c + (l.filter (fun i => decide (P i))).length := by
  induction l with
  | nil => intro c; rfl
  | cons a l ih =>
    intro c
    rw [List.foldl_cons, ih, List.filter_cons]
    by_cases h : P a
    · simp [h]; omega
    · simp [h]

theorem shift_and_one_iff (x i : Nat) : ((x >>> i) &&& 1 = 1) ↔ x.testBit i = true := by
  rw [Nat.and_one_is_mod, Nat.shiftRight_eq_div_pow, Nat.testBit_to_div_mod]
  simp

theorem popcountReference_eq_filter (x : Nat) :
    popcountReference x = ((List.range 32).filter (fun i => x.testBit i)).length := by
  unfold popcountReference
  rw [foldl_count (fun i => (x >>> i) &&& 1 = 1), Nat.zero_add]
  congr 1
  apply List.filter_congr
  intro i _
  by_cases h : x.testBit i = true
  · rw [h]; exact decide_eq_true ((shift_and_one_iff x i).2 h)
  · have hf : x.testBit i = false := by simpa using h
    rw [hf]; exact decide_eq_false (fun hc => h ((shift_and_one_iff x i).1 hc))

theorem ctzScan_spec (k : Nat) :
    ∀ x : Nat, x ≠ 0 → x < 2 ^ k →
      ctzScan k x < k ∧ x % 2 ^ ctzScan k x = 0 ∧ x / 2 ^ ctzScan k x % 2 = 1 := by
  induction k with
  | zero => intro x h0 h; simp at h; omega
  | succ k ih =>
    intro x h0 h
    unfold ctzScan
    by_cases hodd : x % 2 = 1
    · rw [if_pos hodd]
      simp [hodd, Nat.mod_one]
    · rw [if_neg hodd]
      have hhalf : x / 2 < 2 ^ k := by rw [pow_succ] at h; omega
      obtain ⟨i1, i2, i3⟩ := ih (x / 2) (by omega) hhalf
      refine ⟨by omega, ?_, ?_⟩
      · have hx : x = 2 * (x / 2) := by omega
        have hp : 2 ^ (1 + ctzScan k (x / 2)) = 2 * 2 ^ ctzScan k (x / 2) := by
          rw [pow_add, pow_one]
        rw [hp, hx, Nat.mul_mod_mul_left, ← hx, i2]
      · have hp : 2 ^ (1 + ctzScan k (x / 2)) = 2 * 2 ^ ctzScan k (x / 2) := by
          rw [pow_add, pow_one]
        rw [hp, ← Nat.div_div_eq_div_mul]
        exact i3

theorem testBit_of_low_zero (x t j : Nat) (hlow : x % 2 ^ t = 0) (hj : j < t) :
    x.testBit j = false := by
  have hd : 2 ^ (j + 1) ∣ x :=
    Nat.dvd_trans (pow_dvd_pow 2 (by omega)) (Nat.dvd_of_mod_eq_zero hlow)
  have hm : x % (2 ^ j * 2) = 0 := by
    rw [← pow_succ]; exact Nat.mod_eq_zero_of_dvd hd
  rw [Nat.testBit_to_div_mod, ← Nat.mod_mul_right_div_self, hm]
  simp

/-- C13: for every 32-bit word `x` the population count equals the count of
the bit-by-bit reference loop, which is the number of indices `i` in `0..31`
at which bit `i` of `x` is set; `0b1011` gives `3`, `0` gives `0` and
`0xFFFFFFFF` gives `32`. -/
theorem C13_popcount_matches_reference (x : Nat) (hx : UInt32_inRange x) :
    System_Numerics_BitOperationsPopCount x = popcountReference x
    ∧ System_Numerics_BitOperationsPopCount x
        = ((List.range 32).filter (fun i => x.testBit i)).length
    ∧ System_Numerics_BitOperationsPopCount x ≤ 32
    ∧ System_Numerics_BitOperationsPopCount 0b1011 = 3
    ∧ System_Numerics_BitOperationsPopCount 0 = 0
    ∧ System_Numerics_BitOperationsPopCount 0xFFFFFFFF = 32 := by
  unfold UInt32_inRange at hx
  have h : System_Numerics_BitOperationsPopCount x
      = ((List.range 32).filter (fun i => x.testBit i)).length := by
    unfold System_Numerics_BitOperationsPopCount builtin_popcount
    rw [Nat.mod_eq_of_lt hx]
    exact popcountBits_eq_filter 32 x
  refine ⟨by rw [h, popcountReference_eq_filter], h, ?_, by decide, by decide, by decide⟩
  rw [h]
  exact le_trans (List.length_filter_le _ _) (by simp)

/-- C13 at `x = 0xF0F0`: the count is `8`. -/
theorem C13_popcount_matches_reference_witness :
    UInt32_inRange 0xF0F0
    ∧ System_Numerics_BitOperationsPopCount 0xF0F0 = popcountReference 0xF0F0 :=
  ⟨by decide, (C13_popcount_matches_reference 0xF0F0 (by decide)).1⟩

/-- C14: for every non-zero 32-bit word `x` the trailing-zero count returns
an index `t < 32` such that bit `t` of `x` is set and every lower bit is
clear; equivalently `2 ^ t` divides `x` and `2 ^ (t + 1)` does not; `8`
gives `3`. -/
theorem C14_ctz_lowest_set_bit (x : Nat) (hx : UInt32_inRange x) (h0 : x ≠ 0) :
    (∃ t, System_Numerics_BitOperationsTrailingZeroCount x = some t
      ∧ t < 32 ∧ x.testBit t = true ∧ (∀ j, j < t → x.testBit j = false)
      ∧ 2 ^ t ∣ x ∧ ¬ 2 ^ (t + 1) ∣ x)
    ∧ System_Numerics_BitOperationsTrailingZeroCount 8 = some 3 := by
  unfold UInt32_inRange at hx
  refine ⟨⟨ctzScan 32 x, ?_, ?_⟩, by decide⟩
  · unfold System_Numerics_BitOperationsTrailingZeroCount builtin_ctz
    rw [Nat.mod_eq_of_lt hx, if_neg h0]
  · obtain ⟨i1, i2, i3⟩ := ctzScan_spec 32 x h0 hx
    refine ⟨i1, ?_, fun j hj => testBit_of_low_zero x _ j i2 hj,
      Nat.dvd_of_mod_eq_zero i2, ?_⟩
    · rw [Nat.testBit_to_div_mod, i3]
      rfl
    · intro hd
      have hm : x % (2 ^ ctzScan 32 x * 2) = 0 := by
        rw [← pow_succ]; exact Nat.mod_eq_zero_of_dvd hd
      rw [← Nat.mod_mul_right_div_self, hm] at i3
      simp at i3

/-- C14 at `x = 0x50`: the lowest set bit is bit `4`. -/
theorem C14_ctz_lowest_set_bit_witness :
    UInt32_inRange 0x50 ∧ (0x50 : Nat) ≠ 0
    ∧ ∃ t, System_Numerics_BitOperationsTrailingZeroCount 0x50 = some t
      ∧ t < 32 ∧ (0x50 : Nat).testBit t = true ∧ (∀ j, j < t → (0x50 : Nat).testBit j = false)
      ∧ 2 ^ t ∣ 0x50 ∧ ¬ 2 ^ (t + 1) ∣ 0x50 :=
  ⟨by decide, by decide, (C14_ctz_lowest_set_bit 0x50 (by decide) (by decide)).1⟩

/-! ## C15, C19: string length -/

theorem strlen_terminated (s rest : List Nat) (hs : ∀ c ∈ s, c ≠ 0) :
    strlen (s ++ 0 :: rest) = some s.length := by
  induction s with
  | nil => simp [strlen]
  | cons c cs ih =>
    have hc : c ≠ 0 := hs c (List.mem_cons_self c cs)
    have hcs : ∀ d ∈ cs, d ≠ 0 := fun d hd => hs d (List.mem_cons_of_mem c hd)
    rw [List.cons_append, strlen, if_neg hc, ih hcs]
    rfl

theorem wrapSize_cast (r : Int) : ((wrapSize r : Nat) : Int) = r % 2 ^ 64 := by
  unfold wrapSize
  exact Int.toNat_of_nonneg (Int.emod_nonneg _ (by norm_num))

theorem length_terminated (s rest : List Nat) (hs : ∀ c ∈ s, c ≠ 0) :
    System_Stringget_Length (s ++ 0 :: rest) = some (wrapSize ((s.length : Int) - 1)) := by
  unfold System_Stringget_Length
  rw [strlen_terminated s rest hs]
  rfl

/-- C15: for every null-terminated buffer, made of the non-null bytes `s`,
the null byte and whatever follows, the native length is the number
`s.length` of bytes before the first null and the binding returns that length
minus one, the subtraction being done in `size_t`; for `"abc"` it returns
exactly `2`. -/
theorem C15_string_length_minus_one (s rest : List Nat) (hs : ∀ c ∈ s, c ≠ 0) :
    strlen (s ++ 0 :: rest) = some s.length
    ∧ System_Stringget_Length (s ++ 0 :: rest) = some (wrapSize ((s.length : Int) - 1))
    ∧ (1 ≤ s.length → s.length ≤ 2 ^ 64 →
        System_Stringget_Length (s ++ 0 :: rest) = some (s.length - 1))
    ∧ strlen [97, 98, 99, 0] = some 3
    ∧ System_Stringget_Length [97, 98, 99, 0] = some 2 := by
  refine ⟨strlen_terminated s rest hs, length_terminated s rest hs, ?_, by decide, by decide⟩
  intro h1 h2
  rw [length_terminated s rest hs]
  congr 1
  have h := wrapSize_cast ((s.length : Int) - 1)
  omega

/-- C15 for the buffer `"hi"` followed by a null byte and further bytes. -/
theorem C15_string_length_minus_one_witness :
    (∀ c ∈ [104, 105], c ≠ 0)
    ∧ System_Stringget_Length ([104, 105] ++ 0 :: [7, 7])
        = some (wrapSize ((([104, 105] : List Nat).length : Int) - 1)) :=
  ⟨by decide, (C15_string_length_minus_one [104, 105] [7, 7] (by decide)).2.1⟩

/-- C19: the minus-one of the string length is `size_t` arithmetic: for the
empty buffer the result is `2 ^ 64 - 1`, and for every null-terminated buffer
the result `r` is a `size_t` value with `r + 1` equal to the native length
modulo `2 ^ 64`; it is neither negative nor clamped to zero. -/
theorem C19_string_length_wraps (s rest : List Nat) (hs : ∀ c ∈ s, c ≠ 0) :
    (∃ r, System_Stringget_Length (s ++ 0 :: rest) = some r
      ∧ r < 2 ^ 64 ∧ (r + 1) % 2 ^ 64 = s.length % 2 ^ 64
      ∧ (s.length = 0 → r = 2 ^ 64 - 1))
    ∧ System_Stringget_Length (0 :: rest) = some (2 ^ 64 - 1)
    ∧ System_Stringget_Length [0] = some 18446744073709551615 := by
  have h := wrapSize_cast ((s.length : Int) - 1)
  refine ⟨⟨wrapSize ((s.length : Int) - 1), length_terminated s rest hs, ?_, ?_, ?_⟩, ?_,
    by decide⟩
  · omega
  · omega
  · intro h0
    omega
  · have he := length_terminated [] rest (by simp)
    rw [List.nil_append] at he
    rw [he]
    decide

/-- C19 for the empty buffer followed by further bytes. -/
theorem C19_string_length_wraps_witness :
    (∀ c ∈ ([] : List Nat), c ≠ 0)
    ∧ System_Stringget_Length (0 :: [5]) = some (2 ^ 64 - 1) :=
  ⟨by simp, (C19_string_length_wraps [] [5] (by simp)).2.1⟩

/-! ## C16: aligned reallocation -/

/-- C16: for every old pointer, new size and alignment the aligned
reallocation terminates the process by `abort`; it returns no pointer and no
other result. -/
theorem C16_aligned_realloc_aborts (old new_size align : Nat) :
    System_Runtime_InteropServices_NativeMemoryAlignedRealloc old new_size align
      = CallOutcome.processAborted
    ∧ (∀ p : Nat, System_Runtime_InteropServices_NativeMemoryAlignedRealloc old new_size align
        ≠ CallOutcome.returned p)
    ∧ System_Runtime_InteropServices_NativeMemoryAlignedRealloc old new_size align
        ≠ CallOutcome.reachedEndWithoutValue := by
  have h : System_Runtime_InteropServices_NativeMemoryAlignedRealloc old new_size align
      = CallOutcome.processAborted := rfl
  rw [h]
  exact ⟨rfl, fun p hp => CallOutcome.noConfusion hp, fun hp => CallOutcome.noConfusion hp⟩

/-! ## C18: XOR and ones-complement -/

theorem testBit_complement128 (n i : Nat) (hn : n < 2 ^ 128) (hi : i < 128) :
    (2 ^ 128 - 1 - n).testBit i = !n.testBit i := by
  have e : 2 ^ 128 - 1 - n = 2 ^ 128 - (n + 1) := by omega
  rw [e, Nat.testBit_two_pow_sub_succ hn i, decide_eq_true hi, Bool.true_and]

theorem xor_complement128 (n : Nat) (hn : n < 2 ^ 128) :
    n ^^^ (2 ^ 128 - 1 - n) = 2 ^ 128 - 1 := by
  apply Nat.eq_of_testBit_eq
  intro i
  rw [Nat.testBit_xor, Nat.testBit_two_pow_sub_one]
  by_cases hi : i < 128
  · rw [testBit_complement128 n i hn hi, decide_eq_true hi]
    cases n.testBit i <;> rfl
  · have h1 : n.testBit i = false :=
      Nat.testBit_lt_two_pow (lt_of_lt_of_le hn (Nat.pow_le_pow_right (by omega) (by omega)))
    have h2 : (2 ^ 128 - 1 - n).testBit i = false :=
      Nat.testBit_lt_two_pow (lt_of_lt_of_le (by omega : 2 ^ 128 - 1 - n < 2 ^ 128)
        (Nat.pow_le_pow_right (by omega) (by omega)))
    rw [h1, h2, decide_eq_false hi]
    rfl

theorem toBits128_minus_one : toBits128 (-1) = 2 ^ 128 - 1 := by
  rw [toBits128_of_neg (-1) (by norm_num) (by norm_num)]
  omega

theorem signed_complement_value (x : Int) (hx : Int128_inRange x) :
    System_Int128op_OnesComplement x = -x - 1 := by
  unfold Int128_inRange at hx
  unfold System_Int128op_OnesComplement
  by_cases h : 0 ≤ x
  · rw [toBits128_of_nonneg x h (by omega), ofBits128_of_ge _ (by omega) (by omega)]
    omega
  · rw [toBits128_of_neg x (by omega) (by omega), ofBits128_of_lt _ (by omega)]
    omega

/-- C18: XOR and ones-complement act bit by bit in both variants: for
128-bit `a, b` (unsigned) and `x, y` (signed, bits of the two's-complement
representation) and every bit index `i < 128`, bit `i` of the XOR is set
exactly when one of the two operand bits is, and bit `i` of the complement is
set exactly when the operand bit is clear; XOR of a value with itself is `0`,
the complement of the complement is the value, and the XOR of a value with
its complement has all 128 bits set. -/
theorem C18_xor_complement_bitwise (a b : Nat) (x y : Int) (i : Nat)
    (ha : UInt128_inRange a) (_hb : UInt128_inRange b)
    (hx : Int128_inRange x) (_hy : Int128_inRange y) (hi : i < 128) :
    (System_UInt128op_ExclusiveOr a b).testBit i = (a.testBit i ^^ b.testBit i)
    ∧ (toBits128 (System_Int128op_ExclusiveOr x y)).testBit i
        = ((toBits128 x).testBit i ^^ (toBits128 y).testBit i)
    ∧ (System_UInt128op_OnesComplement a).testBit i = !a.testBit i
    ∧ (toBits128 (System_Int128op_OnesComplement x)).testBit i = !(toBits128 x).testBit i
    ∧ System_UInt128op_ExclusiveOr a a = 0
    ∧ System_Int128op_ExclusiveOr x x = 0
    ∧ System_UInt128op_OnesComplement (System_UInt128op_OnesComplement a) = a
    ∧ System_Int128op_OnesComplement (System_Int128op_OnesComplement x) = x
    ∧ System_UInt128op_ExclusiveOr a (System_UInt128op_OnesComplement a) = 2 ^ 128 - 1
    ∧ System_Int128op_ExclusiveOr x (System_Int128op_OnesComplement x) = -1
    ∧ (2 ^ 128 - 1).testBit i = true
    ∧ (toBits128 (-1)).testBit i = true := by
  unfold UInt128_inRange at ha
  have hx' := hx
  unfold Int128_inRange at hx'
  have hbx := toBits128_lt x
  have hby := toBits128_lt y
  have hnot : System_Int128op_OnesComplement x = -x - 1 := signed_complement_value x hx
  have hnotR : Int128_inRange (-x - 1) := by unfold Int128_inRange; omega
  have hall : (2 ^ 128 - 1).testBit i = true := by
    rw [Nat.testBit_two_pow_sub_one, decide_eq_true hi]
  refine ⟨?_, ?_, ?_, ?_, ?_, ?_, ?_, ?_, ?_, ?_, hall, ?_⟩
  · unfold System_UInt128op_ExclusiveOr
    exact Nat.testBit_xor a b i
  · unfold System_Int128op_ExclusiveOr
    rw [toBits128_ofBits128 _ (Nat.xor_lt_two_pow hbx hby)]
    exact Nat.testBit_xor _ _ i
  · unfold System_UInt128op_OnesComplement
    exact testBit_complement128 a i ha hi
  · unfold System_Int128op_OnesComplement
    rw [toBits128_ofBits128 _ (by omega)]
    exact testBit_complement128 _ i hbx hi
  · unfold System_UInt128op_ExclusiveOr
    exact Nat.xor_self a
  · unfold System_Int128op_ExclusiveOr
    rw [Nat.xor_self]
    rfl
  · unfold System_UInt128op_OnesComplement
    omega
  · rw [hnot, signed_complement_value _ hnotR]
    omega
  · unfold System_UInt128op_ExclusiveOr System_UInt128op_OnesComplement
    exact xor_complement128 a ha
  · unfold System_Int128op_ExclusiveOr System_Int128op_OnesComplement
    rw [toBits128_ofBits128 _ (by omega), xor_complement128 _ hbx,
      ofBits128_of_ge _ (by omega) (by omega)]
    omega
  · rw [toBits128_minus_one]
    exact hall

/-- C18 at `a = 12`, `b = 10`, `x = -1`, `y = 5`, bit `2`. -/
theorem C18_xor_complement_bitwise_witness :
    UInt128_inRange 12 ∧ UInt128_inRange 10 ∧ Int128_inRange (-1) ∧ Int128_inRange 5
    ∧ 2 < 128
    ∧ (System_UInt128op_ExclusiveOr 12 10).testBit 2
        = ((12 : Nat).testBit 2 ^^ (10 : Nat).testBit 2) :=
  ⟨by decide, by decide, by norm_num [Int128_inRange], by norm_num [Int128_inRange],
    by decide,
    (C18_xor_complement_bitwise 12 10 (-1) 5 2 (by decide) (by decide)
      (by norm_num [Int128_inRange]) (by norm_num [Int128_inRange]) (by decide)).1⟩

/-! ## C20: negation -/

theorem signedArith128_of_inRange (r : Int) (h : Int128_inRange r) :
    signedArith128 r = some r := by
  unfold signedArith128
  rw [if_pos h]

theorem signedArith128_isSome (r : Int) :
    (signedArith128 r).isSome = true ↔ Int128_inRange r := by
  unfold signedArith128
  split <;> simp [*]

theorem negation_of_min : System_Int128op_UnaryNegation (-(2 ^ 127)) = none := by
  norm_num [System_Int128op_UnaryNegation, signedArith128, Int128_inRange]

/-- C20 fails as stated: negating the minimum value `-2 ^ 127` is a signed
overflow; the expression has no defined value, in particular not
`-2 ^ 127`. -/
theorem C20_negation_of_min_counterexample :
    Int128_inRange (-(2 ^ 127))
    ∧ System_Int128op_UnaryNegation (-(2 ^ 127)) = none
    ∧ System_Int128op_UnaryNegation (-(2 ^ 127)) ≠ some (-(2 ^ 127)) := by
  rw [negation_of_min]
  exact ⟨by norm_num [Int128_inRange], rfl, nofun⟩

/-- C20 (amended): for every signed 128-bit `a` other than the minimum
`-2 ^ 127`, the negation is `-a`, which equals the ones-complement of `a`
plus one (an addition that does not overflow); adding `a` and its negation
gives `0`, and negating twice gives `a`.  The ones-complement is `-a - 1` for
every `a`. -/
theorem C20_negation_in_range (a : Int) (ha : Int128_inRange a) (hmin : a ≠ -(2 ^ 127)) :
    System_Int128op_UnaryNegation a = some (-a)
    ∧ System_Int128op_OnesComplement a = -a - 1
    ∧ System_Int128op_UnaryNegation a
        = System_Int128_op_Addition_i128i128 (System_Int128op_OnesComplement a) 1
    ∧ (System_Int128op_UnaryNegation a).bind
        (fun n => System_Int128_op_Addition_i128i128 a n) = some 0
    ∧ (System_Int128op_UnaryNegation a).bind System_Int128op_UnaryNegation = some a := by
  have ha' := ha
  unfold Int128_inRange at ha'
  have hneg : Int128_inRange (-a) := by unfold Int128_inRange; omega
  have h1 : System_Int128op_UnaryNegation a = some (-a) := by
    unfold System_Int128op_UnaryNegation
    exact signedArith128_of_inRange _ hneg
  have h2 := signed_complement_value a ha
  refine ⟨h1, h2, ?_, ?_, ?_⟩
  · rw [h1, h2]
    unfold System_Int128_op_Addition_i128i128
    rw [signedArith128_of_inRange _ (by rw [sub_add_cancel]; exact hneg), sub_add_cancel]
  · rw [h1, Option.some_bind]
    unfold System_Int128_op_Addition_i128i128
    rw [signedArith128_of_inRange _ (by rw [add_neg_cancel]; norm_num [Int128_inRange]),
      add_neg_cancel]
  · rw [h1, Option.some_bind]
    unfold System_Int128op_UnaryNegation
    rw [signedArith128_of_inRange _ (by rw [neg_neg]; exact ha), neg_neg]

/-- C20 (amended) at `a = 2 ^ 127 - 1`. -/
theorem C20_negation_in_range_witness :
    Int128_inRange (2 ^ 127 - 1) ∧ (2 ^ 127 - 1 : Int) ≠ -(2 ^ 127)
    ∧ System_Int128op_UnaryNegation (2 ^ 127 - 1) = some (-(2 ^ 127 - 1)) :=
  ⟨by norm_num [Int128_inRange], by norm_num,
    (C20_negation_in_range (2 ^ 127 - 1) (by norm_num [Int128_inRange]) (by norm_num)).1⟩

/-! ## C17: which operations have a defined result -/

theorem wrapU128_inRange (r : Int) : UInt128_inRange (wrapU128 r) := toBits128_lt r

/-- C17 fails as stated: a right shift by `128` or by `-1` has no defined
result, in either variant; nor have the signed sum `(2 ^ 127 - 1) + 1` and
the negation of `-2 ^ 127`. -/
theorem C17_undefined_results_counterexample :
    System_UInt128op_RightShift 1 128 = none
    ∧ System_Int128op_RightShift 1 128 = none
    ∧ System_UInt128op_RightShift 1 (-1) = none
    ∧ System_Int128op_RightShift (-1) (-1) = none
    ∧ System_Int128_op_Addition_i128i128 (2 ^ 127 - 1) 1 = none
    ∧ System_Int128op_UnaryNegation (-(2 ^ 127)) = none := by
  refine ⟨?_, ?_, ?_, ?_, ?_, negation_of_min⟩ <;>
    norm_num [System_UInt128op_RightShift, System_Int128op_RightShift, shiftAmountOk,
      System_Int128_op_Addition_i128i128, signedArith128, Int128_inRange]

/-- C17 (amended): on 128-bit operands the unsigned add, subtract and
multiply, the equality, less-than, XOR, ones-complement, conversion and
constructor bindings always return a defined 128-bit (or `0`/`1`) result; a
right shift returns a defined 128-bit result exactly when its amount `s`
satisfies `0 ≤ s < 128`; the signed add, subtract, multiply and negation
return a defined result exactly when the exact result is a signed 128-bit
value. -/
theorem C17_defined_results (a b : Nat) (x y s arg : Int) (H L : Nat)
    (ha : UInt128_inRange a) (hb : UInt128_inRange b)
    (hx : Int128_inRange x) (hH : UInt64_inRange H) (hL : UInt64_inRange L) :
    UInt128_inRange (System_UInt128_op_Addition_u128u128 a b)
    ∧ UInt128_inRange (System_UInt128op_Subtraction a b)
    ∧ UInt128_inRange (System_UInt128op_Multiply a b)
    ∧ UInt128_inRange (System_UInt128op_ExclusiveOr a b)
    ∧ UInt128_inRange (System_UInt128op_OnesComplement a)
    ∧ UInt128_inRange (System_UInt128op_Explicit arg)
    ∧ UInt128_inRange (System_UInt128op_Implicit arg)
    ∧ UInt128_inRange (System_UInt128__ctor_mu128u64u64 H L)
    ∧ Int128_inRange (System_Int128op_ExclusiveOr x y)
    ∧ Int128_inRange (System_Int128op_OnesComplement x)
    ∧ Int128_inRange (System_Int128op_Explicit arg)
    ∧ Int128_inRange (System_Int128op_Implicit arg)
    ∧ Int128_inRange (System_Int128__ctor_mu128u64u64 H L)
    ∧ (System_UInt128_op_Equality_u128u128 a b = 0
        ∨ System_UInt128_op_Equality_u128u128 a b = 1)
    ∧ (System_Int128_op_Equality_i128i128 x y = 0
        ∨ System_Int128_op_Equality_i128i128 x y = 1)
    ∧ (System_UInt128op_LessThan a b = 0 ∨ System_UInt128op_LessThan a b = 1)
    ∧ (System_Int128op_LessThan x y = 0 ∨ System_Int128op_LessThan x y = 1)
    ∧ ((∃ r, System_UInt128op_RightShift a s = some r ∧ UInt128_inRange r)
        ↔ shiftAmountOk s)
    ∧ ((∃ r, System_Int128op_RightShift x s = some r ∧ Int128_inRange r)
        ↔ shiftAmountOk s)
    ∧ ((System_Int128_op_Addition_i128i128 x y).isSome = true ↔ Int128_inRange (x + y))
    ∧ ((System_Int128op_Subtraction x y).isSome = true ↔ Int128_inRange (x - y))
    ∧ ((System_Int128op_Multiply x y).isSome = true ↔ Int128_inRange (x * y))
    ∧ ((System_Int128op_UnaryNegation x).isSome = true ↔ x ≠ -(2 ^ 127)) := by
  unfold UInt64_inRange at hH hL
  have ha' := ha
  have hb' := hb
  unfold UInt128_inRange at ha' hb'
  have hx' := hx
  unfold Int128_inRange at hx'
  refine ⟨wrapU128_inRange _, wrapU128_inRange _, wrapU128_inRange _,
    Nat.xor_lt_two_pow ha' hb', ?_, wrapU128_inRange _, wrapU128_inRange _, ?_,
    ofBits128_inRange _, ofBits128_inRange _, ofBits128_inRange _, ofBits128_inRange _,
    ?_, ?_, ?_, ?_, ?_, ?_, ?_,
    signedArith128_isSome _, signedArith128_isSome _, signedArith128_isSome _, ?_⟩
  · unfold UInt128_inRange System_UInt128op_OnesComplement
    omega
  · unfold UInt128_inRange
    rw [uctor_eq H L hH hL]
    omega
  · rw [sctor_eq H L hH hL]
    exact ofBits128_inRange _
  · unfold System_UInt128_op_Equality_u128u128
    split <;> simp
  · unfold System_Int128_op_Equality_i128i128
    split <;> simp
  · unfold System_UInt128op_LessThan
    split <;> simp
  · unfold System_Int128op_LessThan
    split <;> simp
  · unfold System_UInt128op_RightShift
    by_cases hs : shiftAmountOk s
    · rw [if_pos hs]
      refine ⟨fun _ => hs, fun _ => ⟨_, rfl, ?_⟩⟩
      unfold UInt128_inRange
      rw [Nat.shiftRight_eq_div_pow]
      exact lt_of_le_of_lt (Nat.div_le_self _ _) ha'
    · rw [if_neg hs]
      exact ⟨fun ⟨r, hr, _⟩ => Option.noConfusion hr, fun h => absurd h hs⟩
  · unfold System_Int128op_RightShift
    by_cases hs : shiftAmountOk s
    · rw [if_pos hs]
      exact ⟨fun _ => hs, fun _ => ⟨_, rfl, ofBits128_inRange _⟩⟩
    · rw [if_neg hs]
      exact ⟨fun ⟨r, hr, _⟩ => Option.noConfusion hr, fun h => absurd h hs⟩
  · unfold System_Int128op_UnaryNegation
    rw [signedArith128_isSome]
    unfold Int128_inRange
    constructor
    · intro h; omega
    · intro h; omega

/-- C17 (amended) at concrete operands, with the shift amount `127`. -/
theorem C17_defined_results_witness :
    UInt128_inRange (2 ^ 128 - 1) ∧ UInt128_inRange 3 ∧ Int128_inRange (-(2 ^ 127))
    ∧ UInt64_inRange 1 ∧ UInt64_inRange 2
    ∧ ((∃ r, System_Int128op_RightShift (-(2 ^ 127)) 127 = some r ∧ Int128_inRange r)
        ↔ shiftAmountOk 127) :=
  ⟨by decide, by decide, by norm_num [Int128_inRange], by decide, by decide,
    (C17_defined_results (2 ^ 128 - 1) 3 (-(2 ^ 127)) 5 127 (-9) 1 2 (by decide) (by decide)
      (by norm_num [Int128_inRange]) (by decide) (by decide)).2.2.2.2.2.2.2.2.2.2.2.2.2.2.2.2.2.2.1⟩
